import Mathlib

/-!
Verification of `scripts/import_structure_csv.py`: a shallow embedding of the
CSV structure importer (row grouping, per-work node accumulation, referential
validation, level inference and deterministic node sorting), together with
proofs of the specified properties.

Conventions of the embedding:
* Python strings are Lean `String`s; `str.strip()` is `pyStrip` (ASCII
  whitespace, the characters CPython's `strip` removes from ASCII text).
* `int(s)` is `pythonInt : String → Option Int`: surrounding whitespace,
  an optional sign, then ASCII decimal digits with single underscores
  allowed between digits.  `none` models the `ValueError` the call raises.
* Python dicts (insertion ordered) are association lists `List (String × α)`;
  assignment `d[k] = v` is `assocPut` (it updates an existing key in place,
  keeping its position, and appends a new key at the end), lookup is
  `assocGet`.
* `sys.exit(1)` after the `fail` helper, and an uncaught `ValueError` from
  `int`, both terminate the run: the builder returns `Except BuildError`.
* Writing a YAML file is I/O; the run model `runGo` records each document in
  `written` in the order the script writes the files, and stops at the first
  error exactly where the script exits.
* `sorted(..., key=...)` is a stable ascending sort; any stable sort computes
  the same list, and `sortByStable` (insertion sort, inserting each element
  after existing key-equal ones) is one.
-/

namespace CsvImport

/-- ASCII whitespace stripped by Python's `str.strip()`. -/
def isPySpace (c : Char) : Bool :=
  c = ' ' || c = '\t' || c = '\n' || c = '\r' || c = '\x0b' || c = '\x0c'

/-- Drop leading Python whitespace from a character list. -/
def dropLeadSpace : List Char → List Char
  | [] => []
  | c :: cs => if isPySpace c then dropLeadSpace cs else c :: cs

/-- Strip Python whitespace from both ends of a character list. -/
def pyStripList (cs : List Char) : List Char :=
  (dropLeadSpace (dropLeadSpace cs).reverse).reverse

/-- Python's `str.strip()`. -/
def pyStrip (s : String) : String :=
  ⟨pyStripList s.data⟩

/-- Value of an ASCII digit character. -/
def digitVal (c : Char) : Nat := c.toNat - 48

/-- Digits of an integer literal after the first one: ASCII digits, with a
single underscore permitted between two digits (CPython's grammar for
`int(str)`). -/
def readDigits : List Char → Nat → Option Nat
  | [], acc => some acc
  | c :: cs, acc =>
    if c.isDigit then readDigits cs (acc * 10 + digitVal c)
    else if c = '_' then
      match cs with
      | [] => none
      | d :: ds => if d.isDigit then readDigits ds (acc * 10 + digitVal d) else none
    else none

/-- An unsigned integer literal: at least one digit. -/
def readUInt : List Char → Option Nat
  | [] => none
  | c :: cs => if c.isDigit then readDigits cs (digitVal c) else none

/-- Python's `int(s)` on a string: `some n` on success, `none` models the
`ValueError` it raises on a non-integer literal. -/
def pythonInt (s : String) : Option Int :=
  match pyStripList s.data with
  | [] => none
  | '+' :: rest => (readUInt rest).map (fun n => (n : Int))
  | '-' :: rest => (readUInt rest).map (fun n => -(n : Int))
  | cs => (readUInt cs).map (fun n => (n : Int))

/-- Lookup in an insertion-ordered dict. -/
def assocGet {α : Type} : List (String × α) → String → Option α
  | [], _ => none
  | (k', v) :: rest, k => if k' = k then some v else assocGet rest k

/-- Python dict assignment `d[k] = v`: replace the value of an existing key
in place, append a new key at the end. -/
def assocPut {α : Type} : List (String × α) → String → α → List (String × α)
  | [], k, v => [(k, v)]
  | (k', v') :: rest, k, v =>
    if k' = k then (k', v) :: rest else (k', v') :: assocPut rest k v

/-- One input row of the CSV, all nine required columns as raw strings
(the reader trims nothing). -/
structure Row where
  work_id : String
  node_id : String
  parent_id : String
  level_id : String
  ordinal : String
  lang : String
  title : String
  site : String
  url : String
deriving DecidableEq

/-- A constructed node: the dict built per distinct `node_id`.  `title` and
`links` are insertion-ordered dicts; `links` is `none` until the first link
row (the script creates the key lazily with `setdefault`). -/
structure Node where
  id : String
  level : String
  ordinal : Int
  title : List (String × String)
  parent : Option String
  links : Option (List (String × String))
deriving DecidableEq

/-- One entry of the inferred level catalog. -/
structure Level where
  id : String
  ordinal : Int
deriving DecidableEq

/-- The per-work output document. -/
structure StructureDoc where
  levels : List Level
  nodes : List Node
deriving DecidableEq

/-- How a run terminates early: `failMsg` is the `fail(msg)` helper
(prints `ERROR: msg` and exits 1); `valueError` is an uncaught `ValueError`
escaping from `int(row["ordinal"])` (traceback, exit 1). -/
inductive BuildError where
  | failMsg (msg : String)
  | valueError (msg : String)
deriving DecidableEq

/-- The node dict created on the first row for a `node_id`. -/
def initNode (node_id lvl : String) (ordv : Int) : Node :=
  { id := node_id, level := lvl, ordinal := ordv, title := [], parent := none,
    links := none }

/-- The unconditional per-row mutations of a node: record a non-empty
trimmed `parent_id` (last wins), a title when `lang` and `title` are both
non-empty after trimming, a link when `site` and `url` are. -/
def applyRowUpd (row : Row) (n : Node) : Node :=
  let p := pyStrip row.parent_id
  let n1 := if p = "" then n else { n with parent := some p }
  let lg := pyStrip row.lang
  let tl := pyStrip row.title
  let n2 :=
    if lg = "" then n1
    else if tl = "" then n1
    else { n1 with title := assocPut n1.title lg tl }
  let st := pyStrip row.site
  let ur := pyStrip row.url
  if st = "" then n2
  else if ur = "" then n2
  else { n2 with links := some (assocPut (n2.links.getD []) st ur) }

/-- Mutate the node stored under `k` in place. -/
def updNode (nodes : List (String × Node)) (k : String) (f : Node → Node) :
    List (String × Node) :=
  nodes.map (fun p => if p.1 = k then (p.1, f p.2) else p)

/-- One iteration of the accumulation loop of `build_work_structure`:
reject an empty trimmed `node_id`; parse the ordinal (`int` is called on
every row, because the dict literal handed to `setdefault` is evaluated
before the call); create the node on first encounter; then apply the
unconditional mutations. -/
def processRow (work_id : String) (nodes : List (String × Node)) (row : Row) :
    Except BuildError (List (String × Node)) :=
  let node_id := pyStrip row.node_id
  if node_id = "" then
    .error (.failMsg ("Empty node_id in work " ++ work_id))
  else
    match pythonInt row.ordinal with
    | none =>
        .error (.valueError
          ("invalid literal for int() with base 10: \x27" ++ row.ordinal ++ "\x27"))
    | some ordv =>
        let nodes1 :=
          match assocGet nodes node_id with
          | some _ => nodes
          | none => nodes ++ [(node_id, initNode node_id (pyStrip row.level_id) ordv)]
        .ok (updNode nodes1 node_id (applyRowUpd row))

/-- The accumulation loop, threading the node dict through the rows and
stopping at the first error (the script's `fail` and an uncaught
`ValueError` both exit the process). -/
def accumGo (work_id : String) (m : List (String × Node)) :
    List Row → Except BuildError (List (String × Node))
  | [] => .ok m
  | r :: rs =>
    match processRow work_id m r with
    | .error e => .error e
    | .ok m' => accumGo work_id m' rs

/-- The accumulation loop over one work's rows, from the empty dict. -/
def accumRows (work_id : String) (rows : List Row) :
    Except BuildError (List (String × Node)) :=
  accumGo work_id [] rows

/-- The referential-validation loop: first node (in insertion order) whose
recorded parent is not a key of the node dict aborts the run. -/
def validateGo (keys : List String) : List Node → Except BuildError Unit
  | [] => .ok ()
  | n :: rest =>
    match n.parent with
    | none => validateGo keys rest
    | some p =>
      if p ∈ keys then validateGo keys rest
      else .error (.failMsg
        ("Parent \x27" ++ p ++ "\x27 not found (node " ++ n.id ++ ")"))

/-- `for node in nodes.values(): if "parent" in node and node["parent"] not in
nodes: fail(...)`. -/
def validateParents (nodes : List (String × Node)) : Except BuildError Unit :=
  validateGo (nodes.map Prod.fst) (nodes.map Prod.snd)

/-- The level-inference fold: per node, `level_ordinals[lvl] =
min(level_ordinals.get(lvl, node["ordinal"]), node["ordinal"])`. -/
def levelOrdinals (l : List Node) : List (String × Int) :=
  l.foldl
    (fun m n => assocPut m n.level (min ((assocGet m n.level).getD n.ordinal) n.ordinal))
    []

/-- Insert into an ascending list, after every element already ≤ the new one
(so that the fold below is a stable ascending sort). -/
def insOrd {α : Type} (le : α → α → Bool) (x : α) : List α → List α
  | [] => [x]
  | y :: ys => if le y x then y :: insOrd le x ys else x :: y :: ys

/-- A stable ascending sort, the behaviour of Python's `sorted`. -/
def sortByStable {α : Type} (le : α → α → Bool) (l : List α) : List α :=
  l.foldl (fun acc x => insOrd le x acc) []

/-- Lexicographic comparison of character lists by code point, Python's
`str` ordering. -/
def charsLe : List Char → List Char → Bool
  | [], _ => true
  | _ :: _, [] => false
  | a :: as, b :: bs => if a = b then charsLe as bs else decide (a < b)

/-- Python string `<=`. -/
def pyStrLe (a b : String) : Bool := charsLe a.data b.data

/-- `n.get("parent", "")`: the first component of the sort key. -/
def parentKey (n : Node) : String := n.parent.getD ""

/-- The composite sort key comparison `(parent-or-empty, ordinal, id)`,
Python tuple ordering: strings by code point, the ordinal numerically. -/
def nodeKeyLe (a b : Node) : Bool :=
  if parentKey a = parentKey b then
    if a.ordinal = b.ordinal then pyStrLe a.id b.id
    else decide (a.ordinal < b.ordinal)
  else pyStrLe (parentKey a) (parentKey b)

/-- A `(level, min ordinal)` pair as an emitted Level entry. -/
def mkLevel (p : String × Int) : Level := { id := p.1, ordinal := p.2 }

/-- `sorted(level_ordinals.items(), key=lambda x: x[1])`, then the entries. -/
def inferLevels (l : List Node) : List Level :=
  (sortByStable (fun a b => decide (a.2 ≤ b.2)) (levelOrdinals l)).map mkLevel

/-- `build_work_structure`: accumulate, validate, infer levels, sort nodes,
emit the document (the YAML dump is the caller's I/O). -/
def build_work_structure (work_id : String) (rows : List Row) :
    Except BuildError StructureDoc :=
  match accumRows work_id rows with
  | .error e => .error e
  | .ok nodes =>
    match validateParents nodes with
    | .error e => .error e
    | .ok () =>
      let vals := nodes.map Prod.snd
      .ok { levels := inferLevels vals, nodes := sortByStable nodeKeyLe vals }

/-- `works[row["work_id"]].append(row)` on a `defaultdict(list)`: the raw
(untrimmed) `work_id` is the key. -/
def groupPut : List (String × List Row) → String → Row → List (String × List Row)
  | [], k, r => [(k, [r])]
  | (k', l) :: rest, k, r =>
    if k' = k then (k', l ++ [r]) :: rest else (k', l) :: groupPut rest k r

/-- The Row Grouper: partition rows by raw `work_id`, insertion ordered. -/
def groupRows (rows : List Row) : List (String × List Row) :=
  rows.foldl (fun m r => groupPut m r.work_id r) []

/-- What a run leaves behind: the documents written (in order) before it
returned or died, and the error that killed it, if any. -/
structure RunResult where
  written : List (String × StructureDoc)
  error : Option BuildError
deriving DecidableEq

/-- The per-work loop of `main`: each successful `build_work_structure`
writes its document at once; the first error exits the process, leaving the
files already written on disk. -/
def runGo : List (String × List Row) → List (String × StructureDoc) → RunResult
  | [], acc => { written := acc, error := none }
  | (w, rs) :: rest, acc =>
    match build_work_structure w rs with
    | .ok doc => runGo rest (acc ++ [(w, doc)])
    | .error e => { written := acc, error := some e }

/-- `main` after the CSV is read: group, then build each work in order. -/
def runMain (rows : List Row) : RunResult :=
  runGo (groupRows rows) []

/-- The documents of the groups that build successfully, in group order. -/
def emitted (gs : List (String × List Row)) : List (String × StructureDoc) :=
  gs.filterMap (fun g =>
    match build_work_structure g.1 g.2 with
    | .ok d => some (g.1, d)
    | .error _ => none)

/-! ### Specification-side definitions

These are the yardsticks the theorems compare the embedded code against;
they restate the spec's descriptions, not the code. -/

/-- The rows of a work whose trimmed `node_id` is `k`, in iteration order. -/
def rowsFor (k : String) (rows : List Row) : List Row :=
  rows.filter (fun r => decide (pyStrip r.node_id = k))

/-- The node the spec says `k` should hold: `level` and `ordinal` fixed by
the first row bearing the id, every row's titles/links/parent applied in
order (the first row included, since the script applies them to the node it
just created). -/
def nodeFromRows (k : String) (r : Row) (rs : List Row) : Node :=
  (r :: rs).foldl (fun n row => applyRowUpd row n)
    (initNode k (pyStrip r.level_id) ((pythonInt r.ordinal).getD 0))

/-- The node dict entry the spec predicts for `k` after a successful
accumulation over `rows`. -/
def accumSpec (rows : List Row) (k : String) : Option Node :=
  match rowsFor k rows with
  | [] => none
  | r :: rs => some (nodeFromRows k r rs)

/-- Continuation of `accumSpec` from an intermediate dict entry: the shape
the accumulation invariant threads through the loop. -/
def accumFrom (rows : List Row) (k : String) : Option Node → Option Node
  | some n => some ((rowsFor k rows).foldl (fun n row => applyRowUpd row n) n)
  | none => accumSpec rows k

/-- Does `needle` start `hay`? -/
def leadEq : List Char → List Char → Bool
  | [], _ => true
  | _ :: _, [] => false
  | a :: as, b :: bs => a = b && leadEq as bs

/-- Does `needle` occur contiguously in `hay`? -/
def hasSeq (needle : List Char) : List Char → Bool
  | [] => leadEq needle []
  | c :: cs => leadEq needle (c :: cs) || hasSeq needle cs

/-- Does `hay` contain `needle` as a contiguous substring? -/
def strHasSeq (needle hay : String) : Bool := hasSeq needle.data hay.data

/-- Well-formedness of the node dict the loop maintains: keys are distinct,
each node's `id` is its key, and no key is empty. -/
def goodMap (m : List (String × Node)) : Prop :=
  (m.map Prod.fst).Nodup ∧ ∀ p ∈ m, p.2.id = p.1 ∧ p.1 ≠ ""

/-- The fold `level_ordinals` performs on the ordinals of one level, made
explicit: start absent, take the running minimum. -/
def lvlAcc : Option Int → List Int → Option Int
  | o, [] => o
  | none, x :: xs => lvlAcc (some (min x x)) xs
  | some a, x :: xs => lvlAcc (some (min a x)) xs

/-- The claimed shape of the emitted Levels list: one entry per distinct
level among the document's nodes, each carrying the minimum ordinal of its
level, the list ascending by that minimum. -/
def LevelsSpec (doc : StructureDoc) : Prop :=
  (doc.levels.map Level.id).Nodup ∧
  (∀ lv, lv ∈ doc.levels.map Level.id ↔ lv ∈ doc.nodes.map Node.level) ∧
  (∀ L ∈ doc.levels,
      L.ordinal ∈ (doc.nodes.filter (fun n => decide (n.level = L.id))).map Node.ordinal ∧
      ∀ n ∈ doc.nodes, n.level = L.id → L.ordinal ≤ n.ordinal) ∧
  doc.levels.Pairwise (fun a b => a.ordinal ≤ b.ordinal)

/-- The claimed shape of the emitted Nodes list: ascending in the composite
key, hence roots first, ordinals non-decreasing among key-siblings, and ids
lexicographic among equal-ordinal key-siblings. -/
def NodesSortedSpec (doc : StructureDoc) : Prop :=
  doc.nodes.Pairwise (fun a b => nodeKeyLe a b = true) ∧
  doc.nodes.Pairwise (fun a b => parentKey b = "" → parentKey a = "") ∧
  doc.nodes.Pairwise (fun a b => parentKey a = parentKey b → a.ordinal ≤ b.ordinal) ∧
  doc.nodes.Pairwise (fun a b =>
    parentKey a = parentKey b → a.ordinal = b.ordinal → pyStrLe a.id b.id = true)

/-! ### Concrete inputs for witnesses and counterexamples -/

/-- Build a row from its nine fields in column order. -/
def mkRow (w n p lvl o lg tl st ur : String) : Row :=
  { work_id := w, node_id := n, parent_id := p, level_id := lvl, ordinal := o,
    lang := lg, title := tl, site := st, url := ur }

/-- A valid row of work `W1`. -/
def rowW1 : Row := mkRow "W1" "N1" "" "chapter" "1" "en" "Intro" "" ""

/-- A row of work `W2` with an empty `node_id`. -/
def rowW2bad : Row := mkRow "W2" "" "" "chapter" "1" "" "" "" ""

/-- The node built from `rowW1`. -/
def nodeW1 : Node :=
  { id := "N1", level := "chapter", ordinal := 1, title := [("en", "Intro")],
    parent := none, links := none }

/-- The document `build_work_structure "W1" [rowW1]` emits. -/
def docW1 : StructureDoc :=
  { levels := [{ id := "chapter", ordinal := 1 }], nodes := [nodeW1] }

/-- A row whose ordinal is not an integer literal. -/
def rowBadOrd : Row := mkRow "W1" "N1" "" "chapter" "x1" "" "" "" ""

/-- The message of the `ValueError` that `int("x1")` raises. -/
def badOrdMsg : String := "invalid literal for int() with base 10: \x27x1\x27"

/-- First row for node `N1` (padded id, ordinal 1, an English title). -/
def rowN1a : Row := mkRow "W" " N1 " "" "ch" "1" "en" "Hello" "" ""

/-- Second row for node `N1` (ordinal 2, parent, a French title, a link). -/
def rowN1b : Row := mkRow "W" "N1" "P1" "ch" "2" "fr" "Bonjour" "wiki" "http://x"

/-- The node accumulated from `rowN1a` then `rowN1b`: level and ordinal from
the first row, titles/links/parent from both. -/
def nodeN1 : Node :=
  { id := "N1", level := "ch", ordinal := 1,
    title := [("en", "Hello"), ("fr", "Bonjour")], parent := some "P1",
    links := some [("wiki", "http://x")] }

/-- The node accumulated from `rowN1b` alone (its parent `P1` dangles). -/
def nodeN1b : Node :=
  { id := "N1", level := "ch", ordinal := 2, title := [("fr", "Bonjour")],
    parent := some "P1", links := some [("wiki", "http://x")] }

/-- A root node row, level `part`, ordinal 2. -/
def rowB : Row := mkRow "W" "B" "" "part" "2" "" "" "" ""

/-- A child of `B`, level `chapter`, ordinal 5. -/
def rowA : Row := mkRow "W" "A" "B" "chapter" "5" "" "" "" ""

/-- The node built from `rowB`. -/
def nodeB : Node :=
  { id := "B", level := "part", ordinal := 2, title := [], parent := none,
    links := none }

/-- The node built from `rowA`. -/
def nodeA : Node :=
  { id := "A", level := "chapter", ordinal := 5, title := [],
    parent := some "B", links := none }

/-- The document `build_work_structure "W" [rowB, rowA]` emits. -/
def docBA : StructureDoc :=
  { levels := [{ id := "part", ordinal := 2 }, { id := "chapter", ordinal := 5 }],
    nodes := [nodeB, nodeA] }

/-- A row whose `work_id` is `W1` unpadded. -/
def rowWs1 : Row := mkRow "W1" "N1" "" "L" "1" "" "" "" ""

/-- A row whose `work_id` is `W1` with a leading blank. -/
def rowWs2 : Row := mkRow " W1" "N2" "" "L" "1" "" "" "" ""

/-- A row with every builder-read field padded with blanks. -/
def rowPad : Row := mkRow "V" " N1 " " P1 " " ch " " 1 " " en " " T " " s " " u "

/-- The same row with the fields already trimmed (and another `work_id`:
the builder never reads that field). -/
def rowTrim : Row := mkRow "V2" "N1" "P1" "ch" "1" "en" "T" "s" "u"

/-- First row for node `N1`, well formed. -/
def rowOrdA : Row := mkRow "W" "N1" "" "L" "1" "" "" "" ""

/-- Repeat row for node `N1` whose ordinal is not an integer literal. -/
def rowOrdBad : Row := mkRow "W" "N1" "" "L" "oops" "" "" "" ""

/-- The node accumulated from `rowOrdA` alone. -/
def nodeOrdA : Node :=
  { id := "N1", level := "L", ordinal := 1, title := [], parent := none,
    links := none }

/-- A row making node `A` its own parent. -/
def rowSelf : Row := mkRow "W" "A" "A" "chapter" "1" "" "" "" ""

/-- The node built from `rowSelf`: its `parent` is its own id. -/
def nodeSelf : Node :=
  { id := "A", level := "chapter", ordinal := 1, title := [],
    parent := some "A", links := none }

/-- The document emitted for the self-parent work: the cyclic reference
passes validation untouched. -/
def docSelf : StructureDoc :=
  { levels := [{ id := "chapter", ordinal := 1 }], nodes := [nodeSelf] }

/-! ### Association-list lemmas -/

theorem assocGet_put_self {α : Type} (m : List (String × α)) (k : String) (v : α) :
    assocGet (assocPut m k v) k = some v := by
  induction m with
  | nil => simp [assocPut, assocGet]
  | cons p rest ih =>
    obtain ⟨k', v'⟩ := p
    by_cases h : k' = k
    · simp [assocPut, h, assocGet]
    · simp [assocPut, h, assocGet, ih]

theorem assocGet_put_ne {α : Type} (m : List (String × α)) {k k' : String} (v : α)
    (h : k' ≠ k) : assocGet (assocPut m k v) k' = assocGet m k' := by
  induction m with
  | nil => simp [assocPut, assocGet, Ne.symm h]
  | cons p rest ih =>
    obtain ⟨k'', v''⟩ := p
    by_cases hk : k'' = k
    · subst hk
      simp [assocPut, assocGet, Ne.symm h]
    · simp only [assocPut, if_neg hk, assocGet]
      by_cases hk' : k'' = k'
      · simp [hk']
      · simp [hk', ih]

theorem assocPut_keys {α : Type} (m : List (String × α)) (k : String) (v : α) :
    (assocPut m k v).map Prod.fst =
      if k ∈ m.map Prod.fst then m.map Prod.fst else m.map Prod.fst ++ [k] := by
  induction m with
  | nil => simp [assocPut]
  | cons p rest ih =>
    obtain ⟨k', v'⟩ := p
    by_cases h : k' = k
    · simp [assocPut, h]
    · have : ¬ k = k' := fun hh => h hh.symm
      simp only [assocPut, if_neg h, List.map_cons, List.mem_cons, this, false_or]
      by_cases hm : k ∈ rest.map Prod.fst
      · simp [hm, ih]
      · simp [hm, ih]

theorem assocGet_eq_none {α : Type} (m : List (String × α)) (k : String) :
    assocGet m k = none ↔ k ∉ m.map Prod.fst := by
  induction m with
  | nil => simp [assocGet]
  | cons p rest ih =>
    obtain ⟨k', v'⟩ := p
    by_cases h : k' = k
    · subst h
      simp [assocGet]
    · simp [assocGet, h, ih, Ne.symm h]

theorem mem_of_assocGet {α : Type} {m : List (String × α)} {k : String} {v : α}
    (h : assocGet m k = some v) : (k, v) ∈ m := by
  induction m with
  | nil => simp [assocGet] at h
  | cons p rest ih =>
    obtain ⟨k', v'⟩ := p
    by_cases hk : k' = k
    · subst hk
      simp [assocGet] at h
      simp [h]
    · simp only [assocGet, if_neg hk] at h
      exact List.mem_cons_of_mem _ (ih h)

theorem assocGet_of_mem_nodup {α : Type} {m : List (String × α)} {k : String} {v : α}
    (hnd : (m.map Prod.fst).Nodup) (hm : (k, v) ∈ m) : assocGet m k = some v := by
  induction m with
  | nil => simp at hm
  | cons p rest ih =>
    obtain ⟨k', v'⟩ := p
    simp only [List.map_cons, List.nodup_cons] at hnd
    rcases List.mem_cons.mp hm with h | h
    · cases h
      simp [assocGet]
    · have hk : k' ≠ k := by
        intro hh
        subst hh
        exact hnd.1 (List.mem_map.mpr ⟨(k', v), h, rfl⟩)
      simp [assocGet, hk, ih hnd.2 h]

theorem assocGet_append {α : Type} (m l : List (String × α)) (k : String) :
    assocGet (m ++ l) k =
      match assocGet m k with
      | some v => some v
      | none => assocGet l k := by
  induction m with
  | nil => simp [assocGet]
  | cons p rest ih =>
    obtain ⟨k', v'⟩ := p
    by_cases h : k' = k
    · simp [assocGet, h]
    · simp [assocGet, h, ih]

/-! ### `updNode` lemmas -/

theorem updNode_cons_self (k : String) (v : Node) (rest : List (String × Node))
    (f : Node → Node) :
    updNode ((k, v) :: rest) k f = (k, f v) :: updNode rest k f := by
  simp [updNode]

theorem updNode_cons_ne {k k' : String} (h : k' ≠ k) (v : Node)
    (rest : List (String × Node)) (f : Node → Node) :
    updNode ((k', v) :: rest) k f = (k', v) :: updNode rest k f := by
  simp [updNode, h]

theorem assocGet_updNode_self (m : List (String × Node)) (k : String)
    (f : Node → Node) : assocGet (updNode m k f) k = (assocGet m k).map f := by
  induction m with
  | nil => rfl
  | cons p rest ih =>
    obtain ⟨k', v'⟩ := p
    by_cases h : k' = k
    · subst h
      rw [updNode_cons_self]
      simp [assocGet]
    · rw [updNode_cons_ne h]
      simp [assocGet, h, ih]

theorem assocGet_updNode_ne (m : List (String × Node)) {k k' : String}
    (f : Node → Node) (h : k' ≠ k) :
    assocGet (updNode m k f) k' = assocGet m k' := by
  induction m with
  | nil => rfl
  | cons p rest ih =>
    obtain ⟨k'', v''⟩ := p
    by_cases hk : k'' = k
    · subst hk
      rw [updNode_cons_self]
      simp [assocGet, Ne.symm h, ih]
    · rw [updNode_cons_ne hk]
      by_cases hk' : k'' = k'
      · subst hk'
        simp [assocGet]
      · simp [assocGet, hk', ih]

theorem updNode_keys (m : List (String × Node)) (k : String) (f : Node → Node) :
    (updNode m k f).map Prod.fst = m.map Prod.fst := by
  induction m with
  | nil => rfl
  | cons p rest ih =>
    obtain ⟨k', v'⟩ := p
    by_cases h : k' = k
    · subst h
      rw [updNode_cons_self]
      simp [ih]
    · rw [updNode_cons_ne h]
      simp [ih]

/-! ### `processRow` equations and inversion -/

theorem processRow_emptyId {w : String} {m : List (String × Node)} {r : Row}
    (h : pyStrip r.node_id = "") :
    processRow w m r = .error (.failMsg ("Empty node_id in work " ++ w)) := by
  simp [processRow, h]

theorem processRow_badOrd {w : String} {m : List (String × Node)} {r : Row}
    (h1 : pyStrip r.node_id ≠ "") (h2 : pythonInt r.ordinal = none) :
    processRow w m r = .error (.valueError
      ("invalid literal for int() with base 10: \x27" ++ r.ordinal ++ "\x27")) := by
  simp [processRow, h1, h2]

theorem processRow_ok_new {w : String} {m : List (String × Node)} {r : Row} {o : Int}
    (h1 : pyStrip r.node_id ≠ "") (h2 : pythonInt r.ordinal = some o)
    (h3 : assocGet m (pyStrip r.node_id) = none) :
    processRow w m r = .ok (updNode
      (m ++ [(pyStrip r.node_id, initNode (pyStrip r.node_id) (pyStrip r.level_id) o)])
      (pyStrip r.node_id) (applyRowUpd r)) := by
  simp [processRow, h1, h2, h3]

theorem processRow_ok_old {w : String} {m : List (String × Node)} {r : Row} {o : Int}
    {n : Node} (h1 : pyStrip r.node_id ≠ "") (h2 : pythonInt r.ordinal = some o)
    (h3 : assocGet m (pyStrip r.node_id) = some n) :
    processRow w m r = .ok (updNode m (pyStrip r.node_id) (applyRowUpd r)) := by
  simp [processRow, h1, h2, h3]

theorem processRow_ok_inv {w : String} {m m' : List (String × Node)} {r : Row}
    (h : processRow w m r = .ok m') :
    pyStrip r.node_id ≠ "" ∧ ∃ o, pythonInt r.ordinal = some o := by
  by_cases h1 : pyStrip r.node_id = ""
  · rw [processRow_emptyId h1] at h
    exact absurd h (by simp)
  · cases ho : pythonInt r.ordinal with
    | none =>
      rw [processRow_badOrd h1 ho] at h
      exact absurd h (by simp)
    | some o => exact ⟨h1, o, rfl⟩

/-! ### Accumulation loop lemmas -/

theorem accumGo_append (w : String) (m : List (String × Node)) (l1 l2 : List Row) :
    accumGo w m (l1 ++ l2) =
      match accumGo w m l1 with
      | .error e => .error e
      | .ok m' => accumGo w m' l2 := by
  induction l1 generalizing m with
  | nil => simp [accumGo]
  | cons r rs ih =>
    simp only [List.cons_append, accumGo]
    cases processRow w m r with
    | error e => simp
    | ok m1 => simp [ih]

/-! ### `applyRowUpd` field lemmas -/

theorem applyRowUpd_id (r : Row) (n : Node) : (applyRowUpd r n).id = n.id := by
  simp only [applyRowUpd]
  split_ifs <;> rfl

theorem applyRowUpd_level (r : Row) (n : Node) :
    (applyRowUpd r n).level = n.level := by
  simp only [applyRowUpd]
  split_ifs <;> rfl

theorem applyRowUpd_ordinal (r : Row) (n : Node) :
    (applyRowUpd r n).ordinal = n.ordinal := by
  simp only [applyRowUpd]
  split_ifs <;> rfl

/-! ### `rowsFor` and `accumFrom` step lemmas -/

theorem rowsFor_cons_self {k : String} {r : Row} (h : pyStrip r.node_id = k)
    (rows : List Row) : rowsFor k (r :: rows) = r :: rowsFor k rows := by
  simp [rowsFor, h]

theorem rowsFor_cons_ne {k : String} {r : Row} (h : pyStrip r.node_id ≠ k)
    (rows : List Row) : rowsFor k (r :: rows) = rowsFor k rows := by
  simp [rowsFor, h]

theorem accumFrom_cons_ne {k : String} {r : Row} (h : pyStrip r.node_id ≠ k)
    (rows : List Row) (x : Option Node) :
    accumFrom (r :: rows) k x = accumFrom rows k x := by
  cases x <;> simp [accumFrom, accumSpec, rowsFor_cons_ne h]

/-! ### The accumulation characterization: what each key holds afterwards -/

theorem accumGo_get (w : String) :
    ∀ (rows : List Row) (m₀ m : List (String × Node)),
      accumGo w m₀ rows = .ok m →
      ∀ k, assocGet m k = accumFrom rows k (assocGet m₀ k) := by
  intro rows
  induction rows with
  | nil =>
    intro m₀ m h k
    simp only [accumGo, Except.ok.injEq] at h
    subst h
    cases hg : assocGet m₀ k <;> simp [accumFrom, accumSpec, rowsFor]
  | cons r rs ih =>
    intro m₀ m h k
    cases hp : processRow w m₀ r with
    | error e =>
      simp only [accumGo, hp] at h
      exact absurd h (by simp)
    | ok m₁ =>
      have h1 : accumGo w m₁ rs = .ok m := by
        simp only [accumGo, hp] at h
        exact h
      obtain ⟨hne, o, ho⟩ := processRow_ok_inv hp
      by_cases hkk : pyStrip r.node_id = k
      · subst hkk
        cases hg : assocGet m₀ (pyStrip r.node_id) with
        | some n =>
          have hm₁ : m₁ = updNode m₀ (pyStrip r.node_id) (applyRowUpd r) := by
            rw [processRow_ok_old hne ho hg] at hp
            exact (Except.ok.injEq .. ▸ hp).symm
          have hg₁ : assocGet m₁ (pyStrip r.node_id) = some (applyRowUpd r n) := by
            rw [hm₁, assocGet_updNode_self, hg]
            rfl
          rw [ih m₁ m h1 _, hg₁]
          simp [accumFrom, rowsFor_cons_self rfl]
        | none =>
          have hm₁ : m₁ = updNode
              (m₀ ++ [(pyStrip r.node_id,
                initNode (pyStrip r.node_id) (pyStrip r.level_id) o)])
              (pyStrip r.node_id) (applyRowUpd r) := by
            rw [processRow_ok_new hne ho hg] at hp
            exact (Except.ok.injEq .. ▸ hp).symm
          have hg₁ : assocGet m₁ (pyStrip r.node_id) =
              some (applyRowUpd r
                (initNode (pyStrip r.node_id) (pyStrip r.level_id) o)) := by
            rw [hm₁, assocGet_updNode_self, assocGet_append, hg]
            simp [assocGet]
          rw [ih m₁ m h1 _, hg₁]
          simp [accumFrom, accumSpec, rowsFor_cons_self rfl, nodeFromRows, ho]
      · have hne2 : k ≠ pyStrip r.node_id := fun hh => hkk hh.symm
        have hg₁ : assocGet m₁ k = assocGet m₀ k := by
          cases hg : assocGet m₀ (pyStrip r.node_id) with
          | some n =>
            have hm₁ : m₁ = updNode m₀ (pyStrip r.node_id) (applyRowUpd r) := by
              rw [processRow_ok_old hne ho hg] at hp
              exact (Except.ok.injEq .. ▸ hp).symm
            rw [hm₁, assocGet_updNode_ne _ _ hne2]
          | none =>
            have hm₁ : m₁ = updNode
                (m₀ ++ [(pyStrip r.node_id,
                  initNode (pyStrip r.node_id) (pyStrip r.level_id) o)])
                (pyStrip r.node_id) (applyRowUpd r) := by
              rw [processRow_ok_new hne ho hg] at hp
              exact (Except.ok.injEq .. ▸ hp).symm
            rw [hm₁, assocGet_updNode_ne _ _ hne2, assocGet_append]
            cases hx : assocGet m₀ k with
            | some v => rfl
            | none => simp [assocGet, hne2.symm]
        rw [ih m₁ m h1 _, hg₁, accumFrom_cons_ne hkk]

/-- The whole-run characterization: a successful accumulation stores, for
every key, exactly the node the spec predicts from the rows bearing it. -/
theorem accumRows_get {w : String} {rows : List Row} {m : List (String × Node)}
    (h : accumRows w rows = .ok m) (k : String) :
    assocGet m k = accumSpec rows k := by
  have := accumGo_get w rows [] m h k
  simpa [accumFrom, assocGet] using this

/-! ### Rows that survive accumulation are all well formed -/

theorem accumGo_rows_ok (w : String) :
    ∀ (rows : List Row) (m₀ m : List (String × Node)),
      accumGo w m₀ rows = .ok m →
      ∀ r ∈ rows, pyStrip r.node_id ≠ "" ∧ (pythonInt r.ordinal).isSome = true := by
  intro rows
  induction rows with
  | nil =>
    intro m₀ m _ r hr
    simp at hr
  | cons r rs ih =>
    intro m₀ m h r' hr'
    cases hp : processRow w m₀ r with
    | error e =>
      simp only [accumGo, hp] at h
      exact absurd h (by simp)
    | ok m₁ =>
      have h1 : accumGo w m₁ rs = .ok m := by
        simp only [accumGo, hp] at h
        exact h
      rcases List.mem_cons.mp hr' with hh | hh
      · subst hh
        obtain ⟨hne, o, ho⟩ := processRow_ok_inv hp
        exact ⟨hne, by simp [ho]⟩
      · exact ih m₁ m h1 r' hh

/-! ### The node-dict invariant: distinct non-empty keys, id = key -/

theorem goodMap_processRow {w : String} {m m' : List (String × Node)} {r : Row}
    (hg : goodMap m) (h : processRow w m r = .ok m') : goodMap m' := by
  obtain ⟨hne, o, ho⟩ := processRow_ok_inv h
  have upd_entry : ∀ (l : List (String × Node)),
      ((l.map Prod.fst).Nodup ∧ ∀ p ∈ l, p.2.id = p.1 ∧ p.1 ≠ "") →
      goodMap (updNode l (pyStrip r.node_id) (applyRowUpd r)) := by
    intro l hl
    constructor
    · rw [updNode_keys]
      exact hl.1
    · intro p hp
      rcases List.mem_map.mp hp with ⟨q, hq, hpq⟩
      by_cases hqk : q.1 = pyStrip r.node_id
      · simp only [if_pos hqk] at hpq
        have := hl.2 q hq
        subst hpq
        exact ⟨by rw [applyRowUpd_id, this.1], this.2⟩
      · simp only [if_neg hqk] at hpq
        subst hpq
        exact hl.2 q hq
  cases hget : assocGet m (pyStrip r.node_id) with
  | some n =>
    rw [processRow_ok_old hne ho hget] at h
    have hm' := (Except.ok.injEq .. ▸ h)
    rw [← hm']
    exact upd_entry m hg
  | none =>
    rw [processRow_ok_new hne ho hget] at h
    have hm' := (Except.ok.injEq .. ▸ h)
    rw [← hm']
    refine upd_entry _ ⟨?_, ?_⟩
    · rw [List.map_append]
      have hnotin : pyStrip r.node_id ∉ m.map Prod.fst :=
        (assocGet_eq_none m _).mp hget
      simp [List.Nodup.append, List.nodup_append, hg.1, hnotin]
    · intro p hp
      rcases List.mem_append.mp hp with hh | hh
      · exact hg.2 p hh
      · simp only [List.mem_singleton] at hh
        subst hh
        exact ⟨rfl, hne⟩

theorem goodMap_accumGo (w : String) :
    ∀ (rows : List Row) (m₀ m : List (String × Node)),
      goodMap m₀ → accumGo w m₀ rows = .ok m → goodMap m := by
  intro rows
  induction rows with
  | nil =>
    intro m₀ m hg h
    simp only [accumGo, Except.ok.injEq] at h
    subst h
    exact hg
  | cons r rs ih =>
    intro m₀ m hg h
    cases hp : processRow w m₀ r with
    | error e =>
      simp only [accumGo, hp] at h
      exact absurd h (by simp)
    | ok m₁ =>
      have h1 : accumGo w m₁ rs = .ok m := by
        simp only [accumGo, hp] at h
        exact h
      exact ih m₁ m (goodMap_processRow hg hp) h1

theorem goodMap_accumRows {w : String} {rows : List Row}
    {m : List (String × Node)} (h : accumRows w rows = .ok m) : goodMap m :=
  goodMap_accumGo w rows [] m ⟨List.nodup_nil, by simp⟩ h

/-! ### Validation lemmas -/

theorem validateGo_ok_iff (keys : List String) (l : List Node) :
    validateGo keys l = .ok () ↔ ∀ n ∈ l, ∀ p, n.parent = some p → p ∈ keys := by
  induction l with
  | nil => simp [validateGo]
  | cons n rest ih =>
    cases hp : n.parent with
    | none =>
      have hl : validateGo keys (n :: rest) = validateGo keys rest := by
        simp [validateGo, hp]
      rw [hl, ih]
      constructor
      · intro hall n' hn' p hp'
        rcases List.mem_cons.mp hn' with he | he
        · subst he
          rw [hp] at hp'
          cases hp'
        · exact hall n' he p hp'
      · intro hall n' hn'
        exact hall n' (List.mem_cons_of_mem _ hn')
    | some p =>
      by_cases hmem : p ∈ keys
      · have hl : validateGo keys (n :: rest) = validateGo keys rest := by
          simp [validateGo, hp, hmem]
        rw [hl, ih]
        constructor
        · intro hall n' hn' q hq
          rcases List.mem_cons.mp hn' with he | he
          · subst he
            rw [hp] at hq
            cases hq
            exact hmem
          · exact hall n' he q hq
        · intro hall n' hn'
          exact hall n' (List.mem_cons_of_mem _ hn')
      · have hl : validateGo keys (n :: rest) = .error (.failMsg
            ("Parent \x27" ++ p ++ "\x27 not found (node " ++ n.id ++ ")")) := by
          simp [validateGo, hp, hmem]
        rw [hl]
        constructor
        · intro hcon
          exact absurd hcon (by simp)
        · intro hall
          exact absurd (hall n (List.mem_cons_self n rest) p hp) hmem

theorem validateGo_error_of_dangling (keys : List String) (l : List Node)
    (hd : ∃ n ∈ l, ∃ p, n.parent = some p ∧ p ∉ keys) :
    ∃ p nid, validateGo keys l = .error (.failMsg
        ("Parent \x27" ++ p ++ "\x27 not found (node " ++ nid ++ ")")) ∧
      ∃ n ∈ l, n.parent = some p ∧ n.id = nid ∧ p ∉ keys := by
  induction l with
  | nil => simp at hd
  | cons n rest ih =>
    cases hp : n.parent with
    | none =>
      have hl : validateGo keys (n :: rest) = validateGo keys rest := by
        simp [validateGo, hp]
      obtain ⟨n', hn', p, hp', hnp⟩ := hd
      rcases List.mem_cons.mp hn' with he | he
      · subst he
        rw [hp] at hp'
        cases hp'
      · obtain ⟨q, nid, hval, n'', hn'', hrest⟩ := ih ⟨n', he, p, hp', hnp⟩
        exact ⟨q, nid, hl ▸ hval, n'', List.mem_cons_of_mem _ hn'', hrest⟩
    | some p =>
      by_cases hmem : p ∈ keys
      · have hl : validateGo keys (n :: rest) = validateGo keys rest := by
          simp [validateGo, hp, hmem]
        obtain ⟨n', hn', q, hq, hnq⟩ := hd
        rcases List.mem_cons.mp hn' with he | he
        · subst he
          rw [hp] at hq
          cases hq
          exact absurd hmem hnq
        · obtain ⟨q', nid, hval, n'', hn'', hrest⟩ := ih ⟨n', he, q, hq, hnq⟩
          exact ⟨q', nid, hl ▸ hval, n'', List.mem_cons_of_mem _ hn'', hrest⟩
      · have hl : validateGo keys (n :: rest) = .error (.failMsg
            ("Parent \x27" ++ p ++ "\x27 not found (node " ++ n.id ++ ")")) := by
          simp [validateGo, hp, hmem]
        exact ⟨p, n.id, hl, n, List.mem_cons_self n rest, hp, rfl, hmem⟩

/-! ### `build_work_structure` unfoldings -/

theorem build_error_accum {w : String} {rows : List Row} {e : BuildError}
    (h : accumRows w rows = .error e) :
    build_work_structure w rows = .error e := by
  simp [build_work_structure, h]

theorem build_error_validate {w : String} {rows : List Row}
    {m : List (String × Node)} {e : BuildError} (ha : accumRows w rows = .ok m)
    (hv : validateParents m = .error e) :
    build_work_structure w rows = .error e := by
  simp [build_work_structure, ha, hv]

theorem build_ok_of {w : String} {rows : List Row} {m : List (String × Node)}
    (ha : accumRows w rows = .ok m) (hv : validateParents m = .ok ()) :
    build_work_structure w rows =
      .ok { levels := inferLevels (m.map Prod.snd),
            nodes := sortByStable nodeKeyLe (m.map Prod.snd) } := by
  simp [build_work_structure, ha, hv]

theorem build_ok_inv {w : String} {rows : List Row} {doc : StructureDoc}
    (h : build_work_structure w rows = .ok doc) :
    ∃ m, accumRows w rows = .ok m ∧ validateParents m = .ok () ∧
      doc = { levels := inferLevels (m.map Prod.snd),
              nodes := sortByStable nodeKeyLe (m.map Prod.snd) } := by
  cases hm : accumRows w rows with
  | error e =>
    rw [build_error_accum hm] at h
    exact absurd h (by simp)
  | ok m =>
    cases hv : validateParents m with
    | error e =>
      rw [build_error_validate hm hv] at h
      exact absurd h (by simp)
    | ok u =>
      cases u
      rw [build_ok_of hm hv] at h
      exact ⟨m, rfl, hv, (Except.ok.injEq .. ▸ h).symm⟩

/-! ### Level-inference lemmas -/

theorem lvlAcc_some (xs : List Int) (a : Int) :
    lvlAcc (some a) xs = some (xs.foldl min a) := by
  induction xs generalizing a with
  | nil => simp [lvlAcc]
  | cons x xs ih => simp [lvlAcc, ih]

theorem levelOrdinals_go (k : String) (l : List Node) :
    ∀ m : List (String × Int),
      assocGet
        (l.foldl (fun m n =>
          assocPut m n.level (min ((assocGet m n.level).getD n.ordinal) n.ordinal)) m) k
      = lvlAcc (assocGet m k)
          ((l.filter (fun n => decide (n.level = k))).map Node.ordinal) := by
  induction l with
  | nil =>
    intro m
    simp only [List.foldl_nil, List.filter_nil, List.map_nil]
    cases assocGet m k <;> simp [lvlAcc]
  | cons n rest ih =>
    intro m
    simp only [List.foldl_cons]
    rw [ih]
    by_cases hk : n.level = k
    · subst hk
      rw [assocGet_put_self]
      cases hg : assocGet m n.level with
      | none => simp [lvlAcc, List.filter_cons]
      | some a => simp [lvlAcc, List.filter_cons]
    · rw [assocGet_put_ne _ _ (fun hh => hk hh.symm)]
      simp [List.filter_cons, hk]

theorem levelOrdinals_get (l : List Node) (k : String) :
    assocGet (levelOrdinals l) k =
      match (l.filter (fun n => decide (n.level = k))).map Node.ordinal with
      | [] => none
      | x :: xs => some (xs.foldl min x) := by
  rw [levelOrdinals, levelOrdinals_go]
  cases hf : (l.filter (fun n => decide (n.level = k))).map Node.ordinal with
  | nil => simp [assocGet, lvlAcc]
  | cons x xs => simp [assocGet, lvlAcc, lvlAcc_some]

theorem foldl_min_le_init (xs : List Int) (a : Int) : xs.foldl min a ≤ a := by
  induction xs generalizing a with
  | nil => simp
  | cons x xs ih =>
    simp only [List.foldl_cons]
    exact le_trans (ih (min a x)) (min_le_left a x)

theorem foldl_min_le_mem (xs : List Int) :
    ∀ (a : Int) {x : Int}, x ∈ xs → xs.foldl min a ≤ x := by
  induction xs with
  | nil =>
    intro a x hx
    simp at hx
  | cons y ys ih =>
    intro a x hx
    simp only [List.foldl_cons]
    rcases List.mem_cons.mp hx with he | he
    · subst he
      exact le_trans (foldl_min_le_init ys (min a x)) (min_le_right a x)
    · exact ih (min a y) he

theorem foldl_min_mem (xs : List Int) :
    ∀ a : Int, xs.foldl min a = a ∨ xs.foldl min a ∈ xs := by
  induction xs with
  | nil =>
    intro a
    simp
  | cons x xs ih =>
    intro a
    simp only [List.foldl_cons]
    rcases ih (min a x) with h | h
    · rcases min_choice a x with hm | hm
      · exact Or.inl (h.trans hm)
      · refine Or.inr ?_
        rw [h, hm]
        exact List.mem_cons_self x xs
    · exact Or.inr (List.mem_cons_of_mem x h)

theorem levelOrdinals_keys_nodup (l : List Node) :
    ((levelOrdinals l).map Prod.fst).Nodup := by
  have go : ∀ m : List (String × Int), (m.map Prod.fst).Nodup →
      ((l.foldl (fun m n =>
        assocPut m n.level (min ((assocGet m n.level).getD n.ordinal) n.ordinal)) m).map
          Prod.fst).Nodup := by
    induction l with
    | nil =>
      intro m hm
      exact hm
    | cons n rest ih =>
      intro m hm
      simp only [List.foldl_cons]
      refine ih _ ?_
      rw [assocPut_keys]
      by_cases hmem : n.level ∈ m.map Prod.fst
      · simp [hmem, hm]
      · simp [hmem, List.nodup_append, hm]
  exact go [] (by simp)

theorem levelOrdinals_keys_mem (l : List Node) (k : String) :
    k ∈ (levelOrdinals l).map Prod.fst ↔ k ∈ l.map Node.level := by
  constructor
  · intro h
    by_contra hcon
    have hnone : assocGet (levelOrdinals l) k = none := by
      rw [levelOrdinals_get]
      have : l.filter (fun n => decide (n.level = k)) = [] := by
        rw [List.filter_eq_nil_iff]
        intro n hn hdec
        exact hcon (List.mem_map.mpr ⟨n, hn, by simpa using hdec⟩)
      simp [this]
    exact (assocGet_eq_none _ _).mp hnone h
  · intro h
    by_contra hcon
    have hnone : assocGet (levelOrdinals l) k = none :=
      (assocGet_eq_none _ _).mpr hcon
    rw [levelOrdinals_get] at hnone
    rcases List.mem_map.mp h with ⟨n, hn, hnk⟩
    have : n ∈ l.filter (fun n => decide (n.level = k)) :=
      List.mem_filter.mpr ⟨hn, by simpa using hnk⟩
    cases hf : l.filter (fun n => decide (n.level = k)) with
    | nil => rw [hf] at this; simp at this
    | cons x xs => rw [hf] at hnone; simp at hnone

/-! ### Stable-sort lemmas -/

theorem insOrd_perm {α : Type} (le : α → α → Bool) (x : α) (l : List α) :
    (insOrd le x l).Perm (x :: l) := by
  induction l with
  | nil => exact List.Perm.refl _
  | cons y ys ih =>
    by_cases h : le y x = true
    · simp only [insOrd, if_pos h]
      exact (ih.cons y).trans (List.Perm.swap x y ys)
    · simp only [insOrd, if_neg h]
      exact List.Perm.refl _

theorem sortFold_perm {α : Type} (le : α → α → Bool) :
    ∀ (l acc : List α),
      (l.foldl (fun a x => insOrd le x a) acc).Perm (acc ++ l) := by
  intro l
  induction l with
  | nil =>
    intro acc
    simp
  | cons x xs ih =>
    intro acc
    simp only [List.foldl_cons]
    refine (ih (insOrd le x acc)).trans ?_
    refine (List.Perm.append_right xs (insOrd_perm le x acc)).trans ?_
    exact List.perm_middle.symm

theorem sortByStable_perm {α : Type} (le : α → α → Bool) (l : List α) :
    (sortByStable le l).Perm l := by
  simpa using sortFold_perm le l []

theorem insOrd_pairwise {α : Type} {le : α → α → Bool}
    (total : ∀ a b, le a b = true ∨ le b a = true)
    (htr : ∀ a b c, le a b = true → le b c = true → le a c = true)
    (x : α) {l : List α} (hl : l.Pairwise (fun a b => le a b = true)) :
    (insOrd le x l).Pairwise (fun a b => le a b = true) := by
  induction l with
  | nil => simp [insOrd]
  | cons y ys ih =>
    rcases List.pairwise_cons.mp hl with ⟨hy, hys⟩
    by_cases h : le y x = true
    · simp only [insOrd, if_pos h]
      refine List.pairwise_cons.mpr ⟨?_, ih hys⟩
      intro z hz
      have hz' := (insOrd_perm le x ys).mem_iff.mp hz
      rcases List.mem_cons.mp hz' with he | he
      · subst he
        exact h
      · exact hy z he
    · have hxy : le x y = true := (total x y).resolve_right h
      simp only [insOrd, if_neg h]
      refine List.pairwise_cons.mpr ⟨?_, hl⟩
      intro z hz
      rcases List.mem_cons.mp hz with he | he
      · subst he
        exact hxy
      · exact htr x y z hxy (hy z he)

theorem sortFold_pairwise {α : Type} {le : α → α → Bool}
    (total : ∀ a b, le a b = true ∨ le b a = true)
    (htr : ∀ a b c, le a b = true → le b c = true → le a c = true) :
    ∀ (l acc : List α), acc.Pairwise (fun a b => le a b = true) →
      (l.foldl (fun a x => insOrd le x a) acc).Pairwise
        (fun a b => le a b = true) := by
  intro l
  induction l with
  | nil =>
    intro acc h
    exact h
  | cons x xs ih =>
    intro acc h
    simp only [List.foldl_cons]
    exact ih _ (insOrd_pairwise total htr x h)

theorem sortByStable_pairwise {α : Type} {le : α → α → Bool}
    (total : ∀ a b, le a b = true ∨ le b a = true)
    (htr : ∀ a b c, le a b = true → le b c = true → le a c = true)
    (l : List α) :
    (sortByStable le l).Pairwise (fun a b => le a b = true) :=
  sortFold_pairwise total htr l [] (by simp)

/-! ### Python string-order lemmas -/

theorem charsLe_total : ∀ a b : List Char, charsLe a b = true ∨ charsLe b a = true := by
  intro a
  induction a with
  | nil =>
    intro b
    exact Or.inl rfl
  | cons x as ih =>
    intro b
    cases b with
    | nil => exact Or.inr rfl
    | cons y bs =>
      by_cases hxy : x = y
      · subst hxy
        simp only [charsLe, if_pos rfl]
        exact ih bs
      · rcases lt_trichotomy x y with hlt | heq | hgt
        · exact Or.inl (by simp [charsLe, hxy, hlt])
        · exact absurd heq hxy
        · exact Or.inr (by simp [charsLe, Ne.symm hxy, hgt])

theorem charsLe_trans :
    ∀ a b c : List Char, charsLe a b = true → charsLe b c = true →
      charsLe a c = true := by
  intro a
  induction a with
  | nil =>
    intro b c _ _
    rfl
  | cons x as ih =>
    intro b c hab hbc
    cases b with
    | nil => simp [charsLe] at hab
    | cons y bs =>
      cases c with
      | nil => simp [charsLe] at hbc
      | cons z cs =>
        by_cases hxy : x = y
        · subst hxy
          by_cases hyz : x = z
          · subst hyz
            simp only [charsLe, if_pos rfl] at hab hbc ⊢
            exact ih bs cs hab hbc
          · simp only [charsLe, if_pos rfl] at hab
            simp only [charsLe, if_neg hyz] at hbc ⊢
            exact hbc
        · by_cases hyz : y = z
          · subst hyz
            simp only [charsLe, if_neg hxy] at hab ⊢
            exact hab
          · simp only [charsLe, if_neg hxy] at hab
            simp only [charsLe, if_neg hyz] at hbc
            have hxz : x < z := lt_trans (of_decide_eq_true hab) (of_decide_eq_true hbc)
            simp [charsLe, ne_of_lt hxz, hxz]

theorem charsLe_antisymm :
    ∀ a b : List Char, charsLe a b = true → charsLe b a = true → a = b := by
  intro a
  induction a with
  | nil =>
    intro b _ hba
    cases b with
    | nil => rfl
    | cons y bs => simp [charsLe] at hba
  | cons x as ih =>
    intro b hab hba
    cases b with
    | nil => simp [charsLe] at hab
    | cons y bs =>
      by_cases hxy : x = y
      · subst hxy
        simp only [charsLe, if_pos rfl] at hab hba
        rw [ih bs hab hba]
      · simp only [charsLe, if_neg hxy] at hab
        simp only [charsLe, if_neg (Ne.symm hxy)] at hba
        exact absurd (of_decide_eq_true hba) (lt_asymm (of_decide_eq_true hab))

theorem pyStrLe_total (a b : String) : pyStrLe a b = true ∨ pyStrLe b a = true :=
  charsLe_total a.data b.data

theorem pyStrLe_trans {a b c : String} (hab : pyStrLe a b = true)
    (hbc : pyStrLe b c = true) : pyStrLe a c = true :=
  charsLe_trans a.data b.data c.data hab hbc

theorem pyStrLe_antisymm {a b : String} (hab : pyStrLe a b = true)
    (hba : pyStrLe b a = true) : a = b := by
  obtain ⟨da⟩ := a
  obtain ⟨db⟩ := b
  exact congrArg String.mk (charsLe_antisymm da db hab hba)

theorem pyStrLe_to_empty {s : String} (h : s ≠ "") : pyStrLe s "" = false := by
  obtain ⟨ds⟩ := s
  cases ds with
  | nil => exact absurd rfl h
  | cons c cs => rfl

/-! ### Node sort-key lemmas -/

theorem nodeKeyLe_total (a b : Node) :
    nodeKeyLe a b = true ∨ nodeKeyLe b a = true := by
  unfold nodeKeyLe
  by_cases hp : parentKey a = parentKey b
  · rw [if_pos hp, if_pos hp.symm]
    by_cases ho : a.ordinal = b.ordinal
    · rw [if_pos ho, if_pos ho.symm]
      exact pyStrLe_total _ _
    · rw [if_neg ho, if_neg (Ne.symm ho)]
      rcases lt_trichotomy a.ordinal b.ordinal with h | h | h
      · exact Or.inl (by simpa using h)
      · exact absurd h ho
      · exact Or.inr (by simpa using h)
  · rw [if_neg hp, if_neg (Ne.symm hp)]
    exact pyStrLe_total _ _

theorem nodeKeyLe_trans (a b c : Node) (hab : nodeKeyLe a b = true)
    (hbc : nodeKeyLe b c = true) : nodeKeyLe a c = true := by
  unfold nodeKeyLe at hab hbc ⊢
  by_cases hpab : parentKey a = parentKey b
  · by_cases hpbc : parentKey b = parentKey c
    · have hpac : parentKey a = parentKey c := hpab.trans hpbc
      rw [if_pos hpab] at hab
      rw [if_pos hpbc] at hbc
      rw [if_pos hpac]
      by_cases hoab : a.ordinal = b.ordinal
      · by_cases hobc : b.ordinal = c.ordinal
        · have hoac : a.ordinal = c.ordinal := hoab.trans hobc
          rw [if_pos hoab] at hab
          rw [if_pos hobc] at hbc
          rw [if_pos hoac]
          exact pyStrLe_trans hab hbc
        · rw [if_neg hobc] at hbc
          have hlt : a.ordinal < c.ordinal := hoab ▸ of_decide_eq_true hbc
          rw [if_neg (ne_of_lt hlt)]
          simpa using hlt
      · rw [if_neg hoab] at hab
        by_cases hobc : b.ordinal = c.ordinal
        · have hlt : a.ordinal < c.ordinal := hobc ▸ of_decide_eq_true hab
          rw [if_neg (ne_of_lt hlt)]
          simpa using hlt
        · rw [if_neg hobc] at hbc
          have hlt : a.ordinal < c.ordinal :=
            lt_trans (of_decide_eq_true hab) (of_decide_eq_true hbc)
          rw [if_neg (ne_of_lt hlt)]
          simpa using hlt
    · rw [if_neg hpbc] at hbc
      have hpac : parentKey a ≠ parentKey c := fun h => hpbc (hpab.symm.trans h)
      rw [if_neg hpac, hpab]
      exact hbc
  · by_cases hpbc : parentKey b = parentKey c
    · rw [if_neg hpab] at hab
      have hpac : parentKey a ≠ parentKey c := fun h => hpab (h.trans hpbc.symm)
      rw [if_neg hpac, ← hpbc]
      exact hab
    · rw [if_neg hpab] at hab
      rw [if_neg hpbc] at hbc
      by_cases hpac : parentKey a = parentKey c
      · exfalso
        have hba : pyStrLe (parentKey b) (parentKey a) = true := hpac ▸ hbc
        exact hpab (pyStrLe_antisymm hab hba)
      · rw [if_neg hpac]
        exact pyStrLe_trans hab hbc

theorem nodeKeyLe_root {a b : Node} (h : nodeKeyLe a b = true)
    (hb : parentKey b = "") : parentKey a = "" := by
  by_cases hp : parentKey a = parentKey b
  · rw [hp, hb]
  · unfold nodeKeyLe at h
    rw [if_neg hp] at h
    rw [hb] at h
    have hne : parentKey a ≠ "" := fun he => hp (he.trans hb.symm)
    rw [pyStrLe_to_empty hne] at h
    cases h

theorem nodeKeyLe_ord {a b : Node} (h : nodeKeyLe a b = true)
    (hp : parentKey a = parentKey b) : a.ordinal ≤ b.ordinal := by
  unfold nodeKeyLe at h
  rw [if_pos hp] at h
  by_cases ho : a.ordinal = b.ordinal
  · exact le_of_eq ho
  · rw [if_neg ho] at h
    exact le_of_lt (of_decide_eq_true h)

theorem nodeKeyLe_id {a b : Node} (h : nodeKeyLe a b = true)
    (hp : parentKey a = parentKey b) (ho : a.ordinal = b.ordinal) :
    pyStrLe a.id b.id = true := by
  unfold nodeKeyLe at h
  rw [if_pos hp, if_pos ho] at h
  exact h

/-! ### Row-grouping lemmas -/

theorem groupPut_get_self (m : List (String × List Row)) (k : String) (r : Row) :
    assocGet (groupPut m k r) k = some ((assocGet m k).getD [] ++ [r]) := by
  induction m with
  | nil => simp [groupPut, assocGet]
  | cons p rest ih =>
    obtain ⟨k', l⟩ := p
    by_cases h : k' = k
    · subst h
      simp [groupPut, assocGet]
    · simp [groupPut, h, assocGet, ih]

theorem groupPut_get_ne (m : List (String × List Row)) {k k' : String} (r : Row)
    (h : k' ≠ k) : assocGet (groupPut m k r) k' = assocGet m k' := by
  induction m with
  | nil => simp [groupPut, assocGet, Ne.symm h]
  | cons p rest ih =>
    obtain ⟨k'', l⟩ := p
    by_cases hk : k'' = k
    · subst hk
      simp [groupPut, assocGet, Ne.symm h]
    · simp only [groupPut, if_neg hk, assocGet]
      by_cases hk' : k'' = k'
      · simp [hk']
      · simp [hk', ih]

theorem groupFold_get_some :
    ∀ (rows : List Row) (m : List (String × List Row)) (w : String)
      (x : List Row), assocGet m w = some x →
      assocGet (rows.foldl (fun m r => groupPut m r.work_id r) m) w =
        some (x ++ rows.filter (fun r => decide (r.work_id = w))) := by
  intro rows
  induction rows with
  | nil =>
    intro m w x h
    simpa using h
  | cons r rs ih =>
    intro m w x h
    simp only [List.foldl_cons]
    by_cases hw : r.work_id = w
    · have hput : assocGet (groupPut m r.work_id r) w = some (x ++ [r]) := by
        rw [← hw] at h ⊢
        rw [groupPut_get_self, h]
        rfl
      rw [ih _ w (x ++ [r]) hput]
      simp [List.filter_cons, hw]
    · have hput : assocGet (groupPut m r.work_id r) w = some x := by
        rw [groupPut_get_ne _ _ (fun hh => hw hh.symm), h]
      rw [ih _ w x hput]
      simp [List.filter_cons, hw]

theorem groupFold_get_none :
    ∀ (rows : List Row) (m : List (String × List Row)) (w : String),
      assocGet m w = none →
      assocGet (rows.foldl (fun m r => groupPut m r.work_id r) m) w =
        match rows.filter (fun r => decide (r.work_id = w)) with
        | [] => none
        | l => some l := by
  intro rows
  induction rows with
  | nil =>
    intro m w h
    simpa using h
  | cons r rs ih =>
    intro m w h
    simp only [List.foldl_cons]
    by_cases hw : r.work_id = w
    · have hput : assocGet (groupPut m r.work_id r) w = some [r] := by
        rw [← hw] at h ⊢
        rw [groupPut_get_self, h]
        rfl
      rw [groupFold_get_some rs _ w [r] hput]
      simp [List.filter_cons, hw]
    · have hput : assocGet (groupPut m r.work_id r) w = none := by
        rw [groupPut_get_ne _ _ (fun hh => hw hh.symm), h]
      rw [ih _ w hput]
      simp [List.filter_cons, hw]

theorem groupRows_get (rows : List Row) (w : String) :
    assocGet (groupRows rows) w =
      match rows.filter (fun r => decide (r.work_id = w)) with
      | [] => none
      | l => some l :=
  groupFold_get_none rows [] w rfl

theorem groupPut_join (m : List (String × List Row)) (k : String) (r : Row) :
    ((groupPut m k r).map Prod.snd).flatten.Perm ((m.map Prod.snd).flatten ++ [r]) := by
  induction m with
  | nil => simp [groupPut]
  | cons p rest ih =>
    obtain ⟨k', l⟩ := p
    by_cases h : k' = k
    · subst h
      have hput : groupPut ((k', l) :: rest) k' r = (k', l ++ [r]) :: rest := by
        simp [groupPut]
      rw [hput]
      simp only [List.map_cons, List.flatten_cons, List.append_assoc]
      exact List.Perm.append_left l List.perm_append_comm
    · have hput : groupPut ((k', l) :: rest) k r = (k', l) :: groupPut rest k r := by
        simp [groupPut, h]
      rw [hput]
      simp only [List.map_cons, List.flatten_cons, List.append_assoc]
      exact List.Perm.append_left l ih

theorem groupFold_join :
    ∀ (rows : List Row) (m : List (String × List Row)),
      ((rows.foldl (fun m r => groupPut m r.work_id r) m).map Prod.snd).flatten.Perm
        ((m.map Prod.snd).flatten ++ rows) := by
  intro rows
  induction rows with
  | nil =>
    intro m
    simp
  | cons r rs ih =>
    intro m
    simp only [List.foldl_cons]
    refine (ih _).trans ?_
    refine (List.Perm.append_right rs (groupPut_join m r.work_id r)).trans ?_
    simp [List.append_assoc]

theorem groupRows_join (rows : List Row) :
    ((groupRows rows).map Prod.snd).flatten.Perm rows := by
  simpa using groupFold_join rows []

theorem groupRows_keys_mem (rows : List Row) (v : String) :
    v ∈ (groupRows rows).map Prod.fst ↔ ∃ r ∈ rows, r.work_id = v := by
  constructor
  · intro h
    by_contra hcon
    push_neg at hcon
    have hfil : rows.filter (fun r => decide (r.work_id = v)) = [] := by
      rw [List.filter_eq_nil_iff]
      intro r hr
      simpa using hcon r hr
    have hnone : assocGet (groupRows rows) v = none := by
      rw [groupRows_get, hfil]
    exact (assocGet_eq_none _ _).mp hnone h
  · rintro ⟨r, hr, hv⟩
    by_contra hcon
    have hnone := (assocGet_eq_none _ _).mpr hcon
    rw [groupRows_get] at hnone
    have hmem : r ∈ rows.filter (fun r => decide (r.work_id = v)) :=
      List.mem_filter.mpr ⟨hr, by simpa using hv⟩
    cases hf : rows.filter (fun r => decide (r.work_id = v)) with
    | nil =>
      rw [hf] at hmem
      simp at hmem
    | cons x xs =>
      rw [hf] at hnone
      simp at hnone

/-! ### Builder congruence helper -/

theorem applyRowUpd_congr {r r' : Row}
    (hpar : pyStrip r.parent_id = pyStrip r'.parent_id)
    (hlang : pyStrip r.lang = pyStrip r'.lang)
    (htl : pyStrip r.title = pyStrip r'.title)
    (hst : pyStrip r.site = pyStrip r'.site)
    (hur : pyStrip r.url = pyStrip r'.url) :
    applyRowUpd r = applyRowUpd r' := by
  funext n
  simp only [applyRowUpd, hpar, hlang, htl, hst, hur]

/-! ### Claims -/

/-- C5: for every finite input row sequence, the Row Grouper maps each
`work_id` to exactly the rows bearing that `work_id`, in their original
relative order; no row is dropped or duplicated across groups (the flattened
groups are a permutation of the input); the empty input yields the empty
mapping. -/
theorem C5_row_grouper :
    (∀ (rows : List Row) (w : String),
        assocGet (groupRows rows) w =
          match rows.filter (fun r => decide (r.work_id = w)) with
          | [] => none
          | l => some l) ∧
    (∀ rows : List Row, ((groupRows rows).map Prod.snd).flatten.Perm rows) ∧
    groupRows [] = [] :=
  ⟨groupRows_get, groupRows_join, rfl⟩

/-- C10: referential validation checks nothing beyond membership of each
recorded parent id in the work's key set, so a node whose parent is its own
id passes validation and is emitted with the cyclic reference intact. -/
theorem C10_membership_only_validation :
    (∀ m : List (String × Node),
        validateParents m = .ok () ↔
          ∀ kn ∈ m, ∀ p, kn.2.parent = some p → p ∈ m.map Prod.fst) ∧
    build_work_structure "W" [rowSelf] = .ok docSelf ∧
    nodeSelf ∈ docSelf.nodes ∧ nodeSelf.parent = some nodeSelf.id := by
  refine ⟨?_, rfl, ?_, rfl⟩
  · intro m
    rw [validateParents, validateGo_ok_iff]
    constructor
    · intro h kn hkn p hp
      exact h kn.2 (List.mem_map.mpr ⟨kn, hkn, rfl⟩) p hp
    · intro h n hn p hp
      rcases List.mem_map.mp hn with ⟨kn, hkn, he⟩
      refine h kn hkn p ?_
      rw [he]
      exact hp
  · simp [docSelf]

/-- C9: the ordinal field is parsed on every row, not only a node's first
row: a later row whose `node_id` is already in the node dict but whose
ordinal is not an integer literal still terminates the run with the
`ValueError` from `int`, though the parsed value would have been discarded. -/
theorem C9_ordinal_parsed_every_row (w : String) (pre : List Row) (r : Row)
    (rest : List Row) (m : List (String × Node)) (n : Node)
    (hacc : accumRows w pre = .ok m)
    (hmem : assocGet m (pyStrip r.node_id) = some n)
    (hbad : pythonInt r.ordinal = none) :
    build_work_structure w (pre ++ r :: rest) = .error (.valueError
      ("invalid literal for int() with base 10: \x27" ++ r.ordinal ++ "\x27")) := by
  have hne : pyStrip r.node_id ≠ "" := by
    have hgm := goodMap_accumRows hacc
    have hk : pyStrip r.node_id ∈ m.map Prod.fst := by
      by_contra hcon
      rw [(assocGet_eq_none m _).mpr hcon] at hmem
      cases hmem
    rcases List.mem_map.mp hk with ⟨kn, hkn, he⟩
    exact he ▸ (hgm.2 kn hkn).2
  apply build_error_accum
  have hgo : accumGo w [] pre = .ok m := hacc
  rw [accumRows, accumGo_append, hgo]
  simp only [accumGo, processRow_badOrd hne hbad]

/-- Witness for C9 at a concrete input: node `N1` exists from the first row;
the second row for `N1` carries the ordinal `oops` and kills the run. -/
theorem C9_witness :
    build_work_structure "W" ([rowOrdA] ++ rowOrdBad :: []) = .error (.valueError
      ("invalid literal for int() with base 10: \x27" ++ rowOrdBad.ordinal ++ "\x27")) :=
  C9_ordinal_parsed_every_row "W" [rowOrdA] rowOrdBad [] [("N1", nodeOrdA)]
    nodeOrdA rfl rfl rfl

/-- C2 counterexample: on a non-integer ordinal the run dies with the
uncaught `ValueError` of `int` — its message is the interpreter's
`invalid literal` text, which contains neither the work id `W1` nor the
node id `N1`, unlike the `fail()`-formatted messages of the other error
kinds. -/
theorem C2_counterexample :
    build_work_structure "W1" [rowBadOrd] = .error (.valueError badOrdMsg) ∧
    strHasSeq "W1" badOrdMsg = false ∧ strHasSeq "N1" badOrdMsg = false :=
  ⟨rfl, rfl, rfl⟩

/-- C2 (amended): a row with a non-integer-parseable ordinal terminates the
run with a non-zero status, but through an uncaught `ValueError` whose
message reports only the bad literal — it does not identify the offending
work or node the way the three `fail()`-reported error kinds do. -/
theorem C2_uncaught_valueerror (w : String) (pre : List Row) (r : Row)
    (rest : List Row) (m : List (String × Node))
    (hacc : accumRows w pre = .ok m) (hne : pyStrip r.node_id ≠ "")
    (hbad : pythonInt r.ordinal = none) :
    build_work_structure w (pre ++ r :: rest) = .error (.valueError
      ("invalid literal for int() with base 10: \x27" ++ r.ordinal ++ "\x27")) := by
  apply build_error_accum
  have hgo : accumGo w [] pre = .ok m := hacc
  rw [accumRows, accumGo_append, hgo]
  simp only [accumGo, processRow_badOrd hne hbad]

/-- Witness for the amended C2 at a concrete input. -/
theorem C2_witness :
    build_work_structure "W1" ([] ++ rowBadOrd :: []) = .error (.valueError
      ("invalid literal for int() with base 10: \x27" ++ rowBadOrd.ordinal ++ "\x27")) :=
  C2_uncaught_valueerror "W1" [] rowBadOrd [] [] rfl (by decide) rfl

/-- C1 counterexample: a run whose second work group fails has already
written the first group's document — the failing run leaves partial output,
refuting commit-only-after-zero-errors-across-all-groups. -/
theorem C1_counterexample :
    (runMain [rowW1, rowW2bad]).error = some (.failMsg "Empty node_id in work W2") ∧
    (runMain [rowW1, rowW2bad]).written = [("W1", docW1)] ∧
    ([("W1", docW1)] : List (String × StructureDoc)) ≠ [] :=
  ⟨rfl, rfl, by simp⟩

/-- C1 (amended): when the run fails, the groups are split as a successful
prefix, the first failing group, and an unprocessed tail: every group before
the failure has already emitted its document (partial output on disk), and
neither the failing group nor any later group emits anything. -/
theorem C1_failfast_partial_output (gs : List (String × List Row))
    (acc : List (String × StructureDoc)) (e : BuildError)
    (h : (runGo gs acc).error = some e) :
    ∃ pre w rs post, gs = pre ++ (w, rs) :: post ∧
      build_work_structure w rs = .error e ∧
      (∀ g ∈ pre, ∃ d, build_work_structure g.1 g.2 = .ok d) ∧
      (runGo gs acc).written = acc ++ emitted pre := by
  induction gs generalizing acc with
  | nil => simp [runGo] at h
  | cons g rest ih =>
    obtain ⟨w, rs⟩ := g
    cases hb : build_work_structure w rs with
    | error e' =>
      have hrun : runGo ((w, rs) :: rest) acc =
          { written := acc, error := some e' } := by
        simp [runGo, hb]
      rw [hrun] at h
      simp only [Option.some.injEq] at h
      subst h
      refine ⟨[], w, rs, rest, rfl, hb, by simp, ?_⟩
      rw [hrun]
      simp [emitted]
    | ok d =>
      have hrun : runGo ((w, rs) :: rest) acc = runGo rest (acc ++ [(w, d)]) := by
        simp [runGo, hb]
      rw [hrun] at h
      obtain ⟨pre, w', rs', post, hgs, hb', hpre, hw⟩ := ih (acc ++ [(w, d)]) h
      refine ⟨(w, rs) :: pre, w', rs', post, by rw [hgs]; rfl, hb', ?_, ?_⟩
      · intro g hg
        rcases List.mem_cons.mp hg with he | he
        · subst he
          exact ⟨d, hb⟩
        · exact hpre g he
      · rw [hrun, hw]
        simp [emitted, List.filterMap_cons, hb, List.append_assoc]

/-- Witness for the amended C1 at a concrete input: the run over `W1`
(valid) and `W2` (empty node id) fails on `W2` with `W1` already written. -/
theorem C1_witness :
    ∃ pre w rs post,
      groupRows [rowW1, rowW2bad] = pre ++ (w, rs) :: post ∧
      build_work_structure w rs = .error (.failMsg "Empty node_id in work W2") ∧
      (∀ g ∈ pre, ∃ d, build_work_structure g.1 g.2 = .ok d) ∧
      (runGo (groupRows [rowW1, rowW2bad]) []).written = [] ++ emitted pre :=
  C1_failfast_partial_output (groupRows [rowW1, rowW2bad]) []
    (.failMsg "Empty node_id in work W2") rfl

/-- C3: after a successful accumulation, each node-dict entry is exactly the
node predicted from the rows bearing its `node_id`: created from the first
such row with trimmed `level_id` and parsed ordinal, then every row (the
first included) applying only its titles, links and non-empty parent —
`applyRowUpd` never changes `level` or `ordinal`, and every surviving row's
ordinal did parse (so the first row's `getD` default is never taken). -/
theorem C3_first_row_fixes_level_ordinal (w : String) (rows : List Row)
    (m : List (String × Node)) (k : String) (hacc : accumRows w rows = .ok m) :
    assocGet m k = accumSpec rows k ∧
    (∀ r ∈ rows, pyStrip r.node_id ≠ "" ∧ (pythonInt r.ordinal).isSome = true) ∧
    (∀ (row : Row) (n : Node),
        (applyRowUpd row n).level = n.level ∧
        (applyRowUpd row n).ordinal = n.ordinal) :=
  ⟨accumRows_get hacc k, accumGo_rows_ok w rows [] m hacc,
    fun row n => ⟨applyRowUpd_level row n, applyRowUpd_ordinal row n⟩⟩

/-- Witness for C3 at a concrete input: two rows for `N1`, the first padded
with blanks and ordinal 1, the second with ordinal 2, a second title, a
parent and a link — the stored node keeps level and ordinal of the first row
and accumulates the rest. -/
theorem C3_witness :
    assocGet [("N1", nodeN1)] "N1" = accumSpec [rowN1a, rowN1b] "N1" :=
  (C3_first_row_fixes_level_ordinal "W" [rowN1a, rowN1b] [("N1", nodeN1)]
    "N1" rfl).1

/-- C4 counterexample: the dangling-parent message the code emits starts
with capital `Parent`, not the lowercase `parent 'P' not found (node N)` the
claim quotes. -/
theorem C4_counterexample :
    build_work_structure "W1" [rowN1b] =
      .error (.failMsg "Parent \x27P1\x27 not found (node N1)") ∧
    "Parent \x27P1\x27 not found (node N1)" ≠ "parent \x27P1\x27 not found (node N1)" :=
  ⟨rfl, by decide⟩

/-- C4 (amended): for every accumulated node with a recorded parent, either
the whole work builds and the parent id is some output node's id, or the
build fails with `Parent 'P' not found (node N)` (capital P) naming a
genuinely dangling parent and its child node — never both, and a dangling
reference is never silently dropped. -/
theorem C4_parent_resolution (w : String) (rows : List Row)
    (m : List (String × Node)) (q : String) (nd : Node) (p : String)
    (hacc : accumRows w rows = .ok m) (hmem : (q, nd) ∈ m)
    (hp : nd.parent = some p) :
    (∃ doc, build_work_structure w rows = .ok doc ∧
        ∃ nd' ∈ doc.nodes, nd'.id = p) ∨
    (∃ p' i', build_work_structure w rows = .error (.failMsg
          ("Parent \x27" ++ p' ++ "\x27 not found (node " ++ i' ++ ")")) ∧
        ∃ nd'' ∈ m.map Prod.snd, nd''.parent = some p' ∧ nd''.id = i' ∧
          p' ∉ m.map Prod.fst) := by
  by_cases hall : ∀ n ∈ m.map Prod.snd, ∀ p', n.parent = some p' →
      p' ∈ m.map Prod.fst
  · left
    have hv : validateParents m = .ok () := (validateGo_ok_iff _ _).mpr hall
    refine ⟨_, build_ok_of hacc hv, ?_⟩
    have hpk : p ∈ m.map Prod.fst :=
      hall nd (List.mem_map.mpr ⟨(q, nd), hmem, rfl⟩) p hp
    rcases List.mem_map.mp hpk with ⟨kn, hkn, he⟩
    have hgm := goodMap_accumRows hacc
    have hid : kn.2.id = p := by rw [(hgm.2 kn hkn).1, he]
    have hperm := sortByStable_perm nodeKeyLe (m.map Prod.snd)
    exact ⟨kn.2, hperm.mem_iff.mpr (List.mem_map.mpr ⟨kn, hkn, rfl⟩), hid⟩
  · right
    push_neg at hall
    obtain ⟨n, hn, p', hp', hnp⟩ := hall
    obtain ⟨p'', i'', hval, n'', hn'', hpar'', hid'', hnp''⟩ :=
      validateGo_error_of_dangling (m.map Prod.fst) (m.map Prod.snd)
        ⟨n, hn, p', hp', hnp⟩
    have hv : validateParents m = .error (.failMsg
        ("Parent \x27" ++ p'' ++ "\x27 not found (node " ++ i'' ++ ")")) := hval
    exact ⟨p'', i'', build_error_validate hacc hv, n'', hn'', hpar'', hid'', hnp''⟩

/-- Witness for the amended C4 at a concrete input: the single row gives
node `N1` the dangling parent `P1`, and the build fails with the capital-P
message naming `P1` and `N1`. -/
theorem C4_witness :
    (∃ doc, build_work_structure "W1" [rowN1b] = .ok doc ∧
        ∃ nd' ∈ doc.nodes, nd'.id = "P1") ∨
    (∃ p' i', build_work_structure "W1" [rowN1b] = .error (.failMsg
          ("Parent \x27" ++ p' ++ "\x27 not found (node " ++ i' ++ ")")) ∧
        ∃ nd'' ∈ ([("N1", nodeN1b)].map Prod.snd), nd''.parent = some p' ∧
          nd''.id = i' ∧ p' ∉ ([("N1", nodeN1b)].map Prod.fst)) :=
  C4_parent_resolution "W1" [rowN1b] [("N1", nodeN1b)] "N1" nodeN1b "P1"
    rfl (by simp) rfl

/-- C7: the emitted Nodes list is ascending in the composite key
(parent-or-empty, ordinal, id) with code-point string comparison and numeric
ordinal comparison; hence roots precede non-roots, key-siblings are
non-decreasing by ordinal, and equal-ordinal key-siblings are ordered by id. -/
theorem C7_node_order (w : String) (rows : List Row) (doc : StructureDoc)
    (h : build_work_structure w rows = .ok doc) : NodesSortedSpec doc := by
  obtain ⟨m, hacc, hv, hdoc⟩ := build_ok_inv h
  subst hdoc
  have hpw : (sortByStable nodeKeyLe (m.map Prod.snd)).Pairwise
      (fun a b => nodeKeyLe a b = true) :=
    sortByStable_pairwise nodeKeyLe_total nodeKeyLe_trans _
  exact ⟨hpw,
    hpw.imp (fun hab hb => nodeKeyLe_root hab hb),
    hpw.imp (fun hab hpab => nodeKeyLe_ord hab hpab),
    hpw.imp (fun hab hpab hoab => nodeKeyLe_id hab hpab hoab)⟩

/-- Witness for C7 at a concrete input: the two-node work sorts its root
`B` before the child `A`. -/
theorem C7_witness : NodesSortedSpec docBA :=
  C7_node_order "W" [rowB, rowA] docBA rfl

/-- C6: the emitted Levels list has exactly one entry per distinct level
among the document's nodes, each entry's ordinal is the minimum ordinal of
the nodes carrying that level, and the list ascends by that minimum. -/
theorem C6_levels (w : String) (rows : List Row) (doc : StructureDoc)
    (h : build_work_structure w rows = .ok doc) : LevelsSpec doc := by
  obtain ⟨m, hacc, hv, hdoc⟩ := build_ok_inv h
  subst hdoc
  have hpermN : (sortByStable nodeKeyLe (m.map Prod.snd)).Perm (m.map Prod.snd) :=
    sortByStable_perm _ _
  have hpermL :
      (sortByStable (fun a b => decide (a.2 ≤ b.2))
        (levelOrdinals (m.map Prod.snd))).Perm (levelOrdinals (m.map Prod.snd)) :=
    sortByStable_perm _ _
  have hnd := levelOrdinals_keys_nodup (m.map Prod.snd)
  have hids : ∀ l : List (String × Int),
      (l.map mkLevel).map Level.id = l.map Prod.fst := by
    intro l
    simp [mkLevel, List.map_map, Function.comp]
  refine ⟨?_, ?_, ?_, ?_⟩
  · show (((sortByStable (fun a b => decide (a.2 ≤ b.2))
      (levelOrdinals (m.map Prod.snd))).map mkLevel).map Level.id).Nodup
    rw [hids]
    exact (hpermL.map Prod.fst).nodup_iff.mpr hnd
  · intro lv
    show lv ∈ ((sortByStable (fun a b => decide (a.2 ≤ b.2))
        (levelOrdinals (m.map Prod.snd))).map mkLevel).map Level.id ↔
      lv ∈ (sortByStable nodeKeyLe (m.map Prod.snd)).map Node.level
    rw [hids]
    rw [(hpermL.map Prod.fst).mem_iff, levelOrdinals_keys_mem,
      ← (hpermN.map Node.level).mem_iff]
  · intro L hL
    rcases List.mem_map.mp hL with ⟨pr, hpr, hLpr⟩
    have hprLO : pr ∈ levelOrdinals (m.map Prod.snd) := hpermL.mem_iff.mp hpr
    have hget : assocGet (levelOrdinals (m.map Prod.snd)) pr.1 = some pr.2 :=
      assocGet_of_mem_nodup hnd hprLO
    have h2 := (levelOrdinals_get (m.map Prod.snd) pr.1).symm.trans hget
    subst hLpr
    cases hf : ((m.map Prod.snd).filter
        (fun n => decide (n.level = pr.1))).map Node.ordinal with
    | nil =>
      rw [hf] at h2
      cases h2
    | cons x xs =>
      rw [hf] at h2
      simp only [Option.some.injEq] at h2
      have hpermF : ((sortByStable nodeKeyLe (m.map Prod.snd)).filter
            (fun n => decide (n.level = (mkLevel pr).id))).Perm
          ((m.map Prod.snd).filter (fun n => decide (n.level = pr.1))) :=
        hpermN.filter _
      constructor
      · have hmem : pr.2 ∈ ((m.map Prod.snd).filter
            (fun n => decide (n.level = pr.1))).map Node.ordinal := by
          rw [hf]
          rcases foldl_min_mem xs x with he | he
          · rw [← h2, he]
            exact List.mem_cons_self x xs
          · rw [← h2]
            exact List.mem_cons_of_mem x he
        exact (hpermF.map Node.ordinal).mem_iff.mpr hmem
      · intro n hn hlev
        have hnv : n ∈ m.map Prod.snd := hpermN.mem_iff.mp hn
        have hmemn : n.ordinal ∈ ((m.map Prod.snd).filter
            (fun n => decide (n.level = pr.1))).map Node.ordinal :=
          List.mem_map.mpr ⟨n,
            List.mem_filter.mpr ⟨hnv, by simpa using hlev⟩, rfl⟩
        rw [hf] at hmemn
        show pr.2 ≤ n.ordinal
        rcases List.mem_cons.mp hmemn with he | he
        · rw [← h2, he]
          exact foldl_min_le_init xs x
        · rw [← h2]
          exact foldl_min_le_mem xs x he
  · have htotal : ∀ a b : String × Int,
        decide (a.2 ≤ b.2) = true ∨ decide (b.2 ≤ a.2) = true := by
      intro a b
      rcases Int.le_total a.2 b.2 with h' | h'
      · exact Or.inl (by simpa using h')
      · exact Or.inr (by simpa using h')
    have htr : ∀ a b c : String × Int, decide (a.2 ≤ b.2) = true →
        decide (b.2 ≤ c.2) = true → decide (a.2 ≤ c.2) = true := by
      intro a b c h1 h2
      simpa using le_trans (of_decide_eq_true h1) (of_decide_eq_true h2)
    have hpwL := sortByStable_pairwise htotal htr
      (levelOrdinals (m.map Prod.snd))
    show ((sortByStable (fun a b => decide (a.2 ≤ b.2))
        (levelOrdinals (m.map Prod.snd))).map mkLevel).Pairwise
      (fun a b => a.ordinal ≤ b.ordinal)
    rw [List.pairwise_map]
    exact hpwL.imp (fun hab => by simpa [mkLevel] using of_decide_eq_true hab)

/-- Witness for C6 at a concrete input: levels `part` (min ordinal 2) and
`chapter` (min ordinal 5), sorted ascending. -/
theorem C6_witness : LevelsSpec docBA :=
  C6_levels "W" [rowB, rowA] docBA rfl

/-- C8 counterexample: two rows whose `work_id` values differ only by a
leading blank land in two different groups — the grouping key is used raw,
never trimmed. -/
theorem C8_counterexample :
    groupRows [rowWs1, rowWs2] = [("W1", [rowWs1]), (" W1", [rowWs2])] ∧
    pyStrip rowWs2.work_id = pyStrip rowWs1.work_id ∧
    rowWs2.work_id ≠ rowWs1.work_id :=
  ⟨rfl, rfl, by decide⟩

/-- C8 (amended): every field the Tree Builder reads is used only after
trimming (`node_id`, `level_id`, `parent_id`, `lang`, `title`, `site`,
`url`; the ordinal is trimmed inside integer parsing), so two rows that
agree field-wise after trimming are processed identically — but the
grouping key `work_id` is used verbatim: a group exists per distinct raw
`work_id` value. -/
theorem C8_trimming (w : String) (mp : List (String × Node)) (r r' : Row)
    (h1 : pyStrip r.node_id = pyStrip r'.node_id)
    (h2 : pythonInt r.ordinal = pythonInt r'.ordinal)
    (h2b : (pythonInt r.ordinal).isSome = true)
    (h3 : pyStrip r.level_id = pyStrip r'.level_id)
    (h4 : pyStrip r.parent_id = pyStrip r'.parent_id)
    (h5 : pyStrip r.lang = pyStrip r'.lang)
    (h6 : pyStrip r.title = pyStrip r'.title)
    (h7 : pyStrip r.site = pyStrip r'.site)
    (h8 : pyStrip r.url = pyStrip r'.url) :
    processRow w mp r = processRow w mp r' ∧
    (∀ (rows : List Row) (v : String),
        v ∈ (groupRows rows).map Prod.fst ↔ ∃ q ∈ rows, q.work_id = v) := by
  constructor
  · have hupd := applyRowUpd_congr h4 h5 h6 h7 h8
    cases ho : pythonInt r.ordinal with
    | none =>
      rw [ho] at h2b
      cases h2b
    | some o =>
      have ho' : pythonInt r'.ordinal = some o := h2 ▸ ho
      by_cases hid : pyStrip r.node_id = ""
      · rw [processRow_emptyId hid, processRow_emptyId (h1 ▸ hid)]
      · have hid' : pyStrip r'.node_id ≠ "" := h1 ▸ hid
        cases hget : assocGet mp (pyStrip r.node_id) with
        | some n =>
          rw [processRow_ok_old hid ho hget,
            processRow_ok_old hid' ho' (h1 ▸ hget), h1, hupd]
        | none =>
          rw [processRow_ok_new hid ho hget,
            processRow_ok_new hid' ho' (h1 ▸ hget), h1, h3, hupd]
  · intro rows v
    exact groupRows_keys_mem rows v

/-- Witness for the amended C8: a fully padded row and its trimmed version
are processed identically (their `work_id` fields even differ — the builder
never reads that field), and the grouper keys are raw `work_id` values. -/
theorem C8_witness :
    processRow "W" [] rowPad = processRow "W" [] rowTrim ∧
    (∀ (rows : List Row) (v : String),
        v ∈ (groupRows rows).map Prod.fst ↔ ∃ q ∈ rows, q.work_id = v) :=
  C8_trimming "W" [] rowPad rowTrim (by decide) (by decide) (by decide)
    (by decide) (by decide) (by decide) (by decide) (by decide) (by decide)

end CsvImport
